import Mathlib

/-!
Verification of the syslog receiver core: a shallow embedding of the
octet-counting stream decoder, the syslog parser, the deduplicator,
the severity-partitioned writer and the per-message pipeline, with
theorems settling the specified properties.

Bytes are modelled as natural numbers; byte strings as lists of
naturals.  Python slicing and integer conversion are modelled
explicitly because the decoder feeds arbitrary byte prefixes to them.
-/

namespace Syslog

/-- ASCII digit byte test. -/
def isDigitByte (c : Nat) : Bool := 48 ≤ c && c ≤ 57

/-- Bytes the Python integer conversion strips as whitespace
(the ASCII part: tab, newline, vertical tab, form feed, carriage
return, space). -/
def isIntSpaceByte (c : Nat) : Bool :=
  (9 ≤ c && c ≤ 13) || c = 32

/-- Index of the first occurrence of byte `c`, as `bytes.find` does
(absence modelled by `none` rather than -1). -/
def findByte (c : Nat) : List Nat → Option Nat
  | [] => none
  | b :: rest => if b = c then some 0 else (findByte c rest).map (· + 1)

/-- `bytes.find` with a start position. -/
def findByteFrom (c : Nat) (b : List Nat) (s : Nat) : Option Nat :=
  (findByte c (b.drop s)).map (· + s)

/-- Python slice-index normalisation: negative indices count from the
end, then the index is clamped into [0, len]. -/
def pyIndexNorm (len : Nat) (i : Int) : Nat :=
  if i < 0 then (i + len).toNat else min i.toNat len

/-- Python `b[s:e]`. -/
def pySlice (b : List Nat) (s e : Int) : List Nat :=
  (b.take (pyIndexNorm b.length e)).drop (pyIndexNorm b.length s)

/-- Python `b[s:]`. -/
def pySliceFrom (b : List Nat) (s : Int) : List Nat :=
  b.drop (pyIndexNorm b.length s)

/-- Value of a list of ASCII digit bytes. -/
def digitsToNat (l : List Nat) : Nat := l.foldl (fun a c => a * 10 + (c - 48)) 0

/-- Digit part of a Python integer literal after the first digit:
digits with single underscores allowed between digits. -/
def stripUnderscoreSeps : List Nat → Option (List Nat)
  | [] => some []
  | c :: rest =>
    if isDigitByte c then (stripUnderscoreSeps rest).map (c :: ·)
    else if c = 95 then
      match rest with
      | d :: _ => if isDigitByte d then stripUnderscoreSeps rest else none
      | [] => none
    else none

/-- The digit part of a Python integer literal: a digit followed by
digits with optional single underscore separators. -/
def pyDigitPart (l : List Nat) : Option Nat :=
  match l with
  | [] => none
  | c :: _ => if isDigitByte c then (stripUnderscoreSeps l).map digitsToNat else none

/-- Model of `int(prefix.decode('ascii'))` as applied to the length
prefix: ascii decoding (every byte below 128), whitespace stripping,
an optional sign and a digit part; failure is `none` (the code turns
it into recovery). -/
def pyParseIntAscii (l : List Nat) : Option Int :=
  if l.all (· < 128) then
    match ((l.dropWhile isIntSpaceByte).reverse.dropWhile isIntSpaceByte).reverse with
    | [] => none
    | c :: rest =>
      if c = 43 then (pyDigitPart rest).map (fun n => (n : Int))
      else if c = 45 then (pyDigitPart rest).map (fun n => -(n : Int))
      else (pyDigitPart (c :: rest)).map (fun n => (n : Int))
  else none

/-- Continuation byte test for UTF-8. -/
def isContByte (c : Nat) : Bool := 128 ≤ c && c ≤ 191

/-- Classify one UTF-8 sequence starting at byte `b` with the bytes
`rest` after it: the decoded codepoint (U+FFFD on an invalid or
truncated sequence) and how many bytes of `rest` are also consumed,
following the maximal-subpart practice of the Python codec with
errors='replace'. -/
def utf8Classify (b : Nat) (rest : List Nat) : Nat × Nat :=
  if b < 128 then (b, 0)
  else if 194 ≤ b && b ≤ 223 then
    match rest with
    | b2 :: _ =>
      if isContByte b2 then ((b - 192) * 64 + (b2 - 128), 1) else (65533, 0)
    | [] => (65533, 0)
  else if 224 ≤ b && b ≤ 239 then
    match rest with
    | b2 :: r2 =>
      if (b = 224 && 160 ≤ b2 && b2 ≤ 191) ||
         (225 ≤ b && b ≤ 236 && isContByte b2) ||
         (b = 237 && 128 ≤ b2 && b2 ≤ 159) ||
         (238 ≤ b && isContByte b2) then
        match r2 with
        | b3 :: _ =>
          if isContByte b3 then
            ((b - 224) * 4096 + (b2 - 128) * 64 + (b3 - 128), 2)
          else (65533, 1)
        | [] => (65533, 1)
      else (65533, 0)
    | [] => (65533, 0)
  else if 240 ≤ b && b ≤ 244 then
    match rest with
    | b2 :: r2 =>
      if (b = 240 && 144 ≤ b2 && b2 ≤ 191) ||
         (241 ≤ b && b ≤ 243 && isContByte b2) ||
         (b = 244 && 128 ≤ b2 && b2 ≤ 143) then
        match r2 with
        | b3 :: r3 =>
          if isContByte b3 then
            match r3 with
            | b4 :: _ =>
              if isContByte b4 then
                ((b - 240) * 262144 + (b2 - 128) * 4096 + (b3 - 128) * 64 + (b4 - 128), 3)
              else (65533, 2)
            | [] => (65533, 2)
          else (65533, 1)
        | [] => (65533, 1)
      else (65533, 0)
    | [] => (65533, 0)
  else (65533, 0)

/-- UTF-8 decoding loop; the first argument counts continuation
bytes of an already decoded sequence still to be skipped. -/
def utf8Go : Nat → List Nat → List Nat
  | _, [] => []
  | skip + 1, _ :: rest => utf8Go skip rest
  | 0, b :: rest => (utf8Classify b rest).1 :: utf8Go (utf8Classify b rest).2 rest

/-- UTF-8 decoding with U+FFFD replacement on invalid sequences. -/
def utf8Codepoints (l : List Nat) : List Nat := utf8Go 0 l

/-- `msg_bytes.decode('utf-8')` with replacement fallback: the strict
try path agrees with the replace path whenever it succeeds, so the
net effect is decoding with replacement. -/
def decodeUtf8Replace (l : List Nat) : String :=
  String.mk ((utf8Codepoints l).map Char.ofNat)

/-- State of an OctetCountingReader. -/
structure ReaderState where
  buffer : List Nat
  maxMsgLen : Nat
  maxBufferSize : Nat
deriving DecidableEq, Repr

/-- A fresh reader with the default limits of the constructor. -/
def freshReader : ReaderState := ⟨[], 65535, 10485760⟩

/-- Result of one extraction attempt: a message, recovery (one or
more bytes dropped, retry), or need more data. -/
inductive ExtractResult where
  | message (s : String) (st : ReaderState)
  | recovery (st : ReaderState)
  | needData
deriving DecidableEq, Repr

/-- `_skip_to_next_frame`: search a newline from the space; if found
at a positive index, drop through it, otherwise clear the buffer. -/
def skipToNextFrame (buffer : List Nat) (spaceIdx : Nat) : List Nat :=
  match findByteFrom 10 buffer spaceIdx with
  | some n => if 0 < n then buffer.drop (n + 1) else []
  | none => []

/-- `_extract_and_decode`: slice the payload, advance past the frame,
decode with replacement.  The indices are Python slices because the
declared length may be negative. -/
def extractAndDecode (buffer : List Nat) (spaceIdx : Nat) (msgLen : Int) : String × List Nat :=
  let frameLen : Int := (spaceIdx : Int) + 1 + msgLen
  let msgStart : Int := (spaceIdx : Int) + 1
  let msgEnd : Int := msgStart + msgLen
  (decodeUtf8Replace (pySlice buffer msgStart msgEnd), pySliceFrom buffer frameLen)

/-- `_try_extract_one_message`. -/
def tryExtractOne (st : ReaderState) : ExtractResult :=
  match findByte 32 st.buffer with
  | none => .needData
  | some spaceIdx =>
    match pyParseIntAscii (st.buffer.take spaceIdx) with
    | none => .recovery { st with buffer := st.buffer.drop 1 }
    | some messageLength =>
      if (st.maxMsgLen : Int) < messageLength then
        .recovery { st with buffer := skipToNextFrame st.buffer spaceIdx }
      else
        let frameLength : Int := (spaceIdx : Int) + 1 + messageLength
        if (st.buffer.length : Int) < frameLength then .needData
        else
          let r := extractAndDecode st.buffer spaceIdx messageLength
          .message r.1 { st with buffer := r.2 }

/-- `_extract_all_messages`: the while loop, with explicit fuel;
`none` models a loop that has not exited within the given fuel. -/
def extractAllMessages : Nat → ReaderState → Option (List String × ReaderState)
  | 0, _ => none
  | fuel + 1, st =>
    if st.buffer = [] then some ([], st)
    else
      match tryExtractOne st with
      | .needData => some ([], st)
      | .recovery st' => extractAllMessages fuel st'
      | .message m st' => (extractAllMessages fuel st').map (fun p => (m :: p.1, p.2))

/-- `feed`: append the data, reset on buffer overflow, else extract
all complete messages. -/
def feed (fuel : Nat) (st : ReaderState) (data : List Nat) : Option (List String × ReaderState) :=
  let st1 : ReaderState := { st with buffer := st.buffer ++ data }
  if st1.maxBufferSize < st1.buffer.length then some ([], { st1 with buffer := [] })
  else extractAllMessages fuel st1

/-- Feeding a list of chunks in order, concatenating the outputs. -/
def feedAll (fuel : Nat) : ReaderState → List (List Nat) → Option (List String × ReaderState)
  | st, [] => some ([], st)
  | st, c :: cs =>
    match feed fuel st c with
    | none => none
    | some (ms, st') => (feedAll fuel st' cs).map (fun p => (ms ++ p.1, p.2))

/-- An octet-counted frame: a decimal length prefix (kept as its
digit bytes, so representations with leading zeros are covered) and
the payload. -/
structure Frame where
  digits : List Nat
  payload : List Nat
deriving DecidableEq, Repr

/-- A well-formed frame under a length limit: the prefix is a
nonempty run of ASCII digits whose value is exactly the payload
length, which is at most the limit. -/
def Frame.wf (f : Frame) (mml : Nat) : Prop :=
  f.digits ≠ [] ∧ (∀ c ∈ f.digits, isDigitByte c = true) ∧
    digitsToNat f.digits = f.payload.length ∧ f.payload.length ≤ mml

instance (f : Frame) (mml : Nat) : Decidable (f.wf mml) := by
  unfold Frame.wf; infer_instance

/-- Wire bytes of a frame: digits, one space, payload. -/
def encodeFrame (f : Frame) : List Nat := f.digits ++ 32 :: f.payload

/-- Wire bytes of a stream of frames. -/
def frameStream (fs : List Frame) : List Nat := (fs.map encodeFrame).flatten

/-- The record a frame decodes to. -/
def decodeFrame (f : Frame) : String := decodeUtf8Replace f.payload

/-- Bytes of an ASCII string. -/
def strBytes (s : String) : List Nat := s.data.map Char.toNat

/-!  The parser.  A parsed message is a Python dict with a known key
set; it is modelled as a structure of optional fields, absence of a
key being `none`. -/

structure Record where
  priority : Option Int := none
  facility : Option String := none
  severity : Option String := none
  timestamp : Option String := none
  hostname : Option String := none
  app_name : Option String := none
  proc_id : Option String := none
  msg_id : Option String := none
  structured_data : Option String := none
  version : Option String := none
  format : Option String := none
  message : Option String := none
  raw : Option String := none
  source_ip : Option String := none
  received_at : Option String := none
  parse_error : Option String := none
deriving DecidableEq, Repr

/-- SEVERITY_MAP.get(i, 'unknown'). -/
def severityName : Nat → String
  | 0 => "emergency"
  | 1 => "alert"
  | 2 => "critical"
  | 3 => "error"
  | 4 => "warning"
  | 5 => "notice"
  | 6 => "info"
  | 7 => "debug"
  | _ => "unknown"

/-- FACILITY_MAP.get(i, 'unknown'). -/
def facilityName : Nat → String
  | 0 => "kern"
  | 1 => "user"
  | 2 => "mail"
  | 3 => "daemon"
  | 4 => "auth"
  | 5 => "syslog"
  | 6 => "lpr"
  | 7 => "news"
  | 8 => "uucp"
  | 9 => "cron"
  | 10 => "authpriv"
  | 11 => "ftp"
  | 12 => "ntp"
  | 13 => "security"
  | 14 => "console"
  | 15 => "solaris-cron"
  | 16 => "local0"
  | 17 => "local1"
  | 18 => "local2"
  | 19 => "local3"
  | 20 => "local4"
  | 21 => "local5"
  | 22 => "local6"
  | 23 => "local7"
  | _ => "unknown"

/-- The regular-expression class \s (its ASCII part). -/
def isPyWS (c : Char) : Bool :=
  c = ' ' || c = '\t' || c = '\n' || c = '\r' || c = '\x0b' || c = '\x0c'

/-- The regular-expression class \w (its ASCII part). -/
def isWordC (c : Char) : Bool := c.isAlphanum || c = '_'

def isDigitC (c : Char) : Bool := c.isDigit

/-- A literal character of a pattern. -/
def pLit (c : Char) : List Char → Option (List Char)
  | x :: r => if x = c then some r else none
  | [] => none

/-- A greedy \d+ group; no backtracking is needed because a digit can
never also match what follows the group in the patterns used. -/
def pDigits1 (l : List Char) : Option (List Char × List Char) :=
  let d := l.takeWhile isDigitC
  if d = [] then none else some (d, l.dropWhile isDigitC)

/-- A greedy \S+ group; \S and the \s that follows are disjoint, so
maximal munch is exact. -/
def pTok1 (l : List Char) : Option (List Char × List Char) :=
  let t := l.takeWhile (fun c => !isPyWS c)
  if t = [] then none else some (t, l.dropWhile (fun c => !isPyWS c))

/-- A \s+ separator. -/
def pWS1 (l : List Char) : Option (List Char × List Char) :=
  let w := l.takeWhile isPyWS
  if w = [] then none else some (w, l.dropWhile isPyWS)

/-- The final (.*)$ of the patterns (no DOTALL, no MULTILINE): the
dot stops at a newline and the dollar also accepts exactly one
trailing newline. -/
def pRestDollar (l : List Char) : Option (List Char) :=
  let m := l.takeWhile (fun c => c ≠ '\n')
  match l.dropWhile (fun c => c ≠ '\n') with
  | [] => some m
  | ['\n'] => some m
  | _ => none

/-- \d{1,2} followed by \s+: the run of digits must have length one
or two, a longer run can never match. -/
def pDigitsUpTo2 (l : List Char) : Option (List Char × List Char) :=
  let d := l.takeWhile isDigitC
  if d.length = 1 || d.length = 2 then some (d, l.dropWhile isDigitC) else none

/-- \d{2} exactly. -/
def pDigits2Exact (l : List Char) : Option (List Char × List Char) :=
  match l with
  | a :: b :: r => if isDigitC a && isDigitC b then some ([a, b], r) else none
  | _ => none

/-- Groups of the RFC5424_PATTERN. -/
structure G5424 where
  pri : List Char
  ver : List Char
  ts : List Char
  host : List Char
  app : List Char
  procid : List Char
  msgid : List Char
  sd : List Char
  msg : List Char
deriving DecidableEq, Repr

/-- A (\S+)\s+ piece: header token followed by its separator. -/
def pTokWS (l : List Char) : Option (List Char × List Char) :=
  match pTok1 l with
  | none => none
  | some (t, l1) =>
    match pWS1 l1 with
    | none => none
    | some (_, l2) => some (t, l2)

/-- The <(\d+)> head shared by all three patterns. -/
def pPriHead (l : List Char) : Option (List Char × List Char) :=
  match pLit '<' l with
  | none => none
  | some l1 =>
    match pDigits1 l1 with
    | none => none
    | some (d, l2) =>
      match pLit '>' l2 with
      | none => none
      | some l3 => some (d, l3)

/-- RFC5424_PATTERN.match: direct parser for the anchored pattern
<(\d+)>(\d+)\s+(\S+)\s+(\S+)\s+(\S+)\s+(\S+)\s+(\S+)\s+(\S+)\s*(.*)$ -/
def matchRFC5424 (l : List Char) : Option G5424 :=
  match pPriHead l with
  | none => none
  | some (pri, l3) =>
  match pDigits1 l3 with
  | none => none
  | some (ver, l4) =>
  match pWS1 l4 with
  | none => none
  | some (_, l5) =>
  match pTokWS l5 with
  | none => none
  | some (ts, l6) =>
  match pTokWS l6 with
  | none => none
  | some (host, l7) =>
  match pTokWS l7 with
  | none => none
  | some (app, l8) =>
  match pTokWS l8 with
  | none => none
  | some (procid, l9) =>
  match pTokWS l9 with
  | none => none
  | some (msgid, l10) =>
  match pTok1 l10 with
  | none => none
  | some (sd, l11) =>
  match pRestDollar (l11.dropWhile isPyWS) with
  | none => none
  | some msg => some ⟨pri, ver, ts, host, app, procid, msgid, sd, msg⟩

/-- Groups of the RFC3164_PATTERN. -/
structure G3164 where
  pri : List Char
  ts : List Char
  host : List Char
  msg : List Char
deriving DecidableEq, Repr

/-- RFC3164_PATTERN.match: direct parser for the anchored pattern
<(\d+)>(\w{3}\s+\d{1,2}\s+\d{2}:\d{2}:\d{2})\s+(\S+)\s+(.*)$ -/
def matchRFC3164 (l : List Char) : Option G3164 :=
  match pPriHead l with
  | none => none
  | some (pri, l0) =>
  match l0 with
  | m1 :: m2 :: m3 :: l1 =>
    if isWordC m1 && isWordC m2 && isWordC m3 then
      match pWS1 l1 with
      | none => none
      | some (w1, l2) =>
      match pDigitsUpTo2 l2 with
      | none => none
      | some (day, l3) =>
      match pWS1 l3 with
      | none => none
      | some (w2, l4) =>
      match pDigits2Exact l4 with
      | none => none
      | some (hh, l5) =>
      match pLit ':' l5 with
      | none => none
      | some l6 =>
      match pDigits2Exact l6 with
      | none => none
      | some (mm, l7) =>
      match pLit ':' l7 with
      | none => none
      | some l8 =>
      match pDigits2Exact l8 with
      | none => none
      | some (ss, l9) =>
      match pWS1 l9 with
      | none => none
      | some (_, l10) =>
      match pTokWS l10 with
      | none => none
      | some (host, l11) =>
      match pRestDollar l11 with
      | none => none
      | some msg =>
        some ⟨pri, [m1, m2, m3] ++ w1 ++ day ++ w2 ++ hh ++ [ ':' ] ++ mm ++ [ ':' ] ++ ss,
              host, msg⟩
    else none
  | _ => none

/-- The priority-only fallback pattern <(\d+)>(.*)$ giving the
priority digits and the rest. -/
def matchPriorityOnly (l : List Char) : Option (List Char × List Char) :=
  match pPriHead l with
  | none => none
  | some (d, l1) =>
    match pRestDollar l1 with
    | none => none
    | some m => some (d, m)

/-- Value of a digit group, as int() on a pure digit string. -/
def digitsCharsToNat (l : List Char) : Nat :=
  l.foldl (fun a c => a * 10 + (c.toNat - 48)) 0

/-- _parse_rfc5424. -/
def rfc5424Record (g : G5424) (message : String) : Record :=
  let pri := digitsCharsToNat g.pri
  { priority := some (pri : Int)
    facility := some (facilityName (pri >>> 3))
    severity := some (severityName (pri &&& 7))
    version := some (String.mk g.ver)
    timestamp := some (String.mk g.ts)
    hostname := some (String.mk g.host)
    app_name := some (String.mk g.app)
    proc_id := some (String.mk g.procid)
    msg_id := some (String.mk g.msgid)
    structured_data := some (String.mk g.sd)
    message := some (String.mk g.msg)
    raw := some message
    format := some "RFC5424" }

/-- _parse_rfc3164. -/
def rfc3164Record (g : G3164) (message : String) : Record :=
  let pri := digitsCharsToNat g.pri
  { priority := some (pri : Int)
    facility := some (facilityName (pri >>> 3))
    severity := some (severityName (pri &&& 7))
    timestamp := some (String.mk g.ts)
    hostname := some (String.mk g.host)
    message := some (String.mk g.msg)
    raw := some message
    format := some "RFC3164" }

/-- The try-body of SyslogParser.parse: the two grammars in order,
then the priority-only fallback, then the plain fallback.  `rxIso`
is the receipt timestamp datetime.now(timezone.utc).isoformat(). -/
def parseBody (rxIso : String) (message : String) : Record :=
  let l := message.data
  match matchRFC5424 l with
  | some g => rfc5424Record g message
  | none =>
  match matchRFC3164 l with
  | some g => rfc3164Record g message
  | none =>
  match matchPriorityOnly l with
  | some (d, rest) =>
    let pri := digitsCharsToNat d
    { priority := some (pri : Int)
      facility := some (facilityName (pri >>> 3))
      severity := some (severityName (pri &&& 7))
      message := some (String.mk rest)
      raw := some message
      timestamp := some rxIso }
  | none =>
    { priority := some 13
      facility := some "user"
      severity := some "notice"
      message := some message
      raw := some message
      timestamp := some rxIso }

/-- SyslogParser.parse.  The surrounding try/except is modelled by
exception injection: every operation of the embedded body is total,
so `exc = none` corresponds to real runs, while `some e` models an
internal failure raising the message `e`, answered by the handler
record. -/
def parse (exc : Option String) (rxIso : String) (message : String) : Record :=
  match exc with
  | none => parseBody rxIso message
  | some e =>
    { priority := some 13
      facility := some "user"
      severity := some "error"
      message := some message
      raw := some message
      parse_error := some e
      timestamp := some rxIso }

/-!  The deduplicator.  Wall-clock instants are passed explicitly as
integers counted in seconds, so that timedelta(minutes=w) is 60*w. -/

/-- Key of the dedup map: (source_ip, priority, message). -/
abbrev DedupKey := String × Int × String

structure DedupState where
  windowMinutes : Int
  seen : List (DedupKey × Int)
deriving DecidableEq, Repr

/-- Lookup in the seen_messages dict. -/
def dLookup (k : DedupKey) : List (DedupKey × Int) → Option Int
  | [] => none
  | (k0, t) :: rest => if k0 = k then some t else dLookup k rest

/-- Assignment in the seen_messages dict. -/
def dInsert (k : DedupKey) (t : Int) : List (DedupKey × Int) → List (DedupKey × Int)
  | [] => [(k, t)]
  | (k0, t0) :: rest => if k0 = k then (k, t) :: rest else (k0, t0) :: dInsert k t rest

/-- should_write: keep iff the key is unseen or its last sighting is
at least the window ago; on keep, record the current time. -/
def shouldWrite (d : DedupState) (now : Int) (sourceIp : String) (priority : Int)
    (message : String) : Bool × DedupState :=
  let key : DedupKey := (sourceIp, priority, message)
  match dLookup key d.seen with
  | some lastSeen =>
    if now - lastSeen < 60 * d.windowMinutes then (false, d)
    else (true, { d with seen := dInsert key now d.seen })
  | none => (true, { d with seen := dInsert key now d.seen })

/-- A sequence of should_write calls on one key at given instants. -/
def runShouldWrites (d : DedupState) (k : DedupKey) : List Int → List Bool × DedupState
  | [] => ([], d)
  | t :: ts =>
    let r := shouldWrite d t k.1 k.2.1 k.2.2
    let rr := runShouldWrites r.2 k ts
    (r.1 :: rr.1, rr.2)

/-!  The writer.  The log directory is modelled as a map from file
names to line lists; a backup name <name>.log.<i> is the pair
(name, some i) and the active file <name>.log is (name, none), which
keeps distinct path strings distinct.  Serialisation of a record to
its JSON line is a parameter. -/

abbrev FileKey := String × Option Nat

abbrev FileSys := List (FileKey × List String)

def fsGet : FileSys → FileKey → Option (List String)
  | [], _ => none
  | (k, v) :: rest, k' => if k = k' then some v else fsGet rest k'

def fsSet : FileSys → FileKey → List String → FileSys
  | [], k, v => [(k, v)]
  | (k0, v0) :: rest, k, v =>
    if k0 = k then (k, v) :: rest else (k0, v0) :: fsSet rest k v

def fsErase : FileSys → FileKey → FileSys
  | [], _ => []
  | (k0, v0) :: rest, k =>
    if k0 = k then fsErase rest k else (k0, v0) :: fsErase rest k

/-- Path.rename a b (with any previous b already unlinked by the
caller, and POSIX overwrite semantics otherwise). -/
def fsRename (fs : FileSys) (a b : FileKey) : FileSys :=
  match fsGet fs a with
  | some v => fsSet (fsErase fs a) b v
  | none => fs

/-- SEVERITY_FILES lookup. -/
def severityFileName : String → Option String
  | "emergency" => some "emergency.log"
  | "alert" => some "alert.log"
  | "critical" => some "critical.log"
  | "error" => some "error.log"
  | "warning" => some "warning.log"
  | "notice" => some "notice.log"
  | "info" => some "info.log"
  | "debug" => some "debug.log"
  | _ => none

/-- SEVERITY_FILES.get(severity, 'unknown.log'). -/
def fileNameFor (sev : String) : String := (severityFileName sev).getD "unknown.log"

/-- The severity bucket write routes a record to: the severity value
with default 'info', demoted to 'unknown' when not a known name. -/
def bucketOf (r : Record) : String :=
  let s := r.severity.getD "info"
  if (severityFileName s).isSome then s else "unknown"

structure WriterState where
  fs : FileSys
  handles : List String
  maxBytes : Nat
  backupCount : Nat
  isClosed : Bool
deriving DecidableEq, Repr

/-- Bytes a line occupies on disk: the serialised record plus the
newline written after it. -/
def lineSize (s : String) : Nat := s.utf8ByteSize + 1

def fileSize (ls : List String) : Nat := (ls.map lineSize).sum

/-- _should_rotate: the active file exists and has size at least
max_bytes. -/
def shouldRotate (w : WriterState) (sev : String) : Bool :=
  match fsGet w.fs (fileNameFor sev, none) with
  | some f => w.maxBytes ≤ fileSize f
  | none => false

/-- One step of the backup shift: if <name>.log.<i> exists, rename it
to <name>.log.<i+1>, deleting a pre-existing <name>.log.<i+1>. -/
def rotStep (nm : String) (fs : FileSys) (i : Nat) : FileSys :=
  if (fsGet fs (nm, some i)).isSome then
    let fs1 := if (fsGet fs (nm, some (i + 1))).isSome then fsErase fs (nm, some (i + 1)) else fs
    fsRename fs1 (nm, some i) (nm, some (i + 1))
  else fs

/-- The loop for i in range(backup_count - 1, 0, -1): processes k,
k-1, ..., 1. -/
def rotateBackups (nm : String) (fs : FileSys) : Nat → FileSys
  | 0 => fs
  | k + 1 => rotateBackups nm (rotStep nm fs (k + 1)) k

/-- _rotate_file: close and forget the cached handle, shift the
backups, move the active file to <name>.log.1. -/
def rotateFile (w : WriterState) (sev : String) : WriterState :=
  let nm := fileNameFor sev
  let fs1 := rotateBackups nm w.fs (w.backupCount - 1)
  let fs2 :=
    if (fsGet fs1 (nm, none)).isSome then fsRename fs1 (nm, none) (nm, some 1) else fs1
  { w with handles := w.handles.erase sev, fs := fs2 }

/-- _get_file_handle, as its effect on the cache and the directory:
opening in append mode creates the file when missing. -/
def ensureHandle (w : WriterState) (sev : String) : WriterState :=
  if w.isClosed then w
  else if sev ∈ w.handles then w
  else
    let nm : FileKey := (fileNameFor sev, none)
    let fs :=
      match fsGet w.fs nm with
      | some _ => w.fs
      | none => fsSet w.fs nm []
    { w with fs := fs, handles := sev :: w.handles }

/-- write: route by severity, rotate if needed, append the serialised
record and a newline.  In this sequential model the double check of
is_closed inside the lock sees the same value as the first check. -/
def writeRec (ser : Record → String) (w : WriterState) (r : Record) : WriterState :=
  if w.isClosed then w
  else
    let sev := bucketOf r
    let w1 := if shouldRotate w sev then rotateFile w sev else w
    let w2 := ensureHandle w1 sev
    let nm : FileKey := (fileNameFor sev, none)
    let content := (fsGet w2.fs nm).getD []
    { w2 with fs := fsSet w2.fs nm (content ++ [ser r]) }

/-!  The pipeline (one _process_message call).  The three clock reads
the path can make are passed explicitly. -/

structure Clock where
  /-- datetime.now().isoformat(): local wall-clock, no timezone. -/
  nowIso : String
  /-- datetime.utcnow().isoformat(): naive UTC. -/
  utcnowIso : String
  /-- datetime.now(timezone.utc).isoformat(): aware UTC; this is the
  receipt stamp the parser itself uses on its fallback paths. -/
  nowUtcIso : String
deriving DecidableEq, Repr

/-- The shared body of _process_message: parse, consult the
deduplicator with (source_ip, priority, message), drop or enrich; the
returned record is the one handed to the writer, none meaning the
writer is never invoked. -/
def processMessage (dedup : String → Int → String → Bool) (stamp rxIso : String)
    (message sourceIp : String) : Option Record :=
  let parsed := parse none rxIso message
  if dedup sourceIp (parsed.priority.getD 0) (parsed.message.getD "") then
    some { parsed with source_ip := some sourceIp, received_at := some stamp }
  else none

/-- UDPSyslogReceiver._process_message stamps datetime.now(). -/
def processMessageUDP (dedup : String → Int → String → Bool) (clk : Clock)
    (message sourceIp : String) : Option Record :=
  processMessage dedup clk.nowIso clk.nowUtcIso message sourceIp

/-- TLSSyslogReceiver._process_message stamps datetime.utcnow(). -/
def processMessageTLS (dedup : String → Int → String → Bool) (clk : Clock)
    (message sourceIp : String) : Option Record :=
  processMessage dedup clk.utcnowIso clk.nowUtcIso message sourceIp

/-!  Wording of the specification used by the claims. -/

/-- Spec wording for C1: a well-formed non-negative ASCII decimal
numeral is a nonempty run of ASCII digits. -/
def isNonNegDecimal (l : List Nat) : Bool := !l.isEmpty && l.all isDigitByte

/-- A fresh reader with explicit limits. -/
def mkReader (mml mbs : Nat) : ReaderState := ⟨[], mml, mbs⟩

/-- A buffer on which extraction stops for more data: empty, or a
strict prefix of a single well-formed frame within the length
limit. -/
def blockedBuf (u : List Nat) (mml : Nat) : Prop :=
  u = [] ∨ ∃ f t, Frame.wf f mml ∧ u ++ t = encodeFrame f ∧ t ≠ []

/-!  Helper lemmas about the decoder. -/

theorem feed_no_overflow (fuel : Nat) (st : ReaderState) (data : List Nat)
    (h : ¬ st.maxBufferSize < (st.buffer ++ data).length) :
    feed fuel st data = extractAllMessages fuel { st with buffer := st.buffer ++ data } := by
  simp only [feed]
  exact if_neg h

theorem extract_stuck (st : ReaderState) (hne : ¬ st.buffer = [])
    (hstep : tryExtractOne st = .message "" st) :
    ∀ fuel, extractAllMessages fuel st = none := by
  intro fuel
  induction fuel with
  | zero => rfl
  | succ n ih =>
    rw [extractAllMessages, if_neg hne, hstep]
    show (extractAllMessages n st).map (fun p => ("" :: p.1, p.2)) = none
    rw [ih]
    rfl

/-- C2: the claim asserts every feed terminates with each loop pass
consuming bytes or exiting; on the buffer b"-3 abcdef" the length
prefix parses to -3, the frame length is 0, the slice past frame 0
leaves the buffer unchanged, and the loop never exits, so feed never
returns regardless of fuel. -/
theorem c2_feed_diverges_on_negative_prefix :
    ∀ fuel : Nat, feed fuel freshReader (strBytes "-3 abcdef") = none := by
  intro fuel
  rw [feed_no_overflow fuel freshReader (strBytes "-3 abcdef") (by decide)]
  exact extract_stuck _ (by decide) (by decide) fuel

/-- C1 counterexample: with buffer "+5 HELLO" the prefix before the
first space is "+5", which is not a well-formed non-negative ASCII
decimal numeral (it carries a sign character), yet the extractor
emits the frame payload instead of entering recovery, because the
integer conversion accepts a signed numeral. -/
theorem c1_counterexample :
    ¬ (∀ (b : List Nat) (i mml mbs : Nat),
        findByte 32 b = some i →
        isNonNegDecimal (b.take i) = false →
        tryExtractOne ⟨b, mml, mbs⟩ = ExtractResult.recovery ⟨b.drop 1, mml, mbs⟩) := by
  intro h
  exact absurd (h (strBytes "+5 HELLO") 2 65535 10485760 (by decide) (by decide)) (by decide)

/-- C1 (amended): recovery discards exactly one byte from the buffer
head whenever the prefix before the first space is rejected by the
integer conversion, which accepts signed numerals and underscore
separators besides plain digit runs, so a letter or an empty prefix
does enter recovery while a prefix such as "+5" does not; a fresh
decoder with default limits fed "X 5 HELLO" returns exactly
["HELLO"]. -/
theorem c1_single_byte_recovery :
    (∀ (b : List Nat) (i mml mbs : Nat),
        findByte 32 b = some i →
        pyParseIntAscii (b.take i) = none →
        tryExtractOne ⟨b, mml, mbs⟩ = ExtractResult.recovery ⟨b.drop 1, mml, mbs⟩) ∧
    feed 10 freshReader (strBytes "X 5 HELLO") = some (["HELLO"], freshReader) := by
  constructor
  · intro b i mml mbs hf hp
    simp only [tryExtractOne, hf, hp]
  · decide

theorem c1_single_byte_recovery_witness :
    tryExtractOne ⟨strBytes "X 5 HELLO", 65535, 10485760⟩ =
      ExtractResult.recovery ⟨(strBytes "X 5 HELLO").drop 1, 65535, 10485760⟩ :=
  c1_single_byte_recovery.1 (strBytes "X 5 HELLO") 1 65535 10485760 (by decide) (by decide)

/-!  The pipeline claims. -/

/-- C3 counterexample: the UDP pipeline stamps received_at with
datetime.now(), the local wall clock, not UTC: with a clock whose
local rendering "L" differs from the UTC rendering "U", the record
written carries "L". -/
theorem c3_counterexample :
    ¬ (∀ (dedup : String → Int → String → Bool) (clk : Clock) (m ip : String) (r : Record),
        processMessageUDP dedup clk m ip = some r → r.received_at = some clk.utcnowIso) := by
  intro h
  have hr : processMessageUDP (fun _ _ _ => true) ⟨"L", "U", "Z"⟩ "<13>hi" "1.2.3.4" =
      some { parse none "Z" "<13>hi" with
             source_ip := some "1.2.3.4", received_at := some "L" } := by
    rfl
  exact absurd (h _ _ _ _ _ hr) (by decide)

/-- C3 (amended): for every message on either transport the pipeline
parses first, then consults the deduplicator with the source address,
the parsed priority and the parsed message; on a false verdict the
writer is never invoked, otherwise the record is enriched with
source_ip and with received_at taken from the current wall clock,
which is local time on the UDP transport and naive UTC on the TLS
transport, and handed to the writer. -/
theorem c3_pipeline_order :
    ∀ (dedup : String → Int → String → Bool) (clk : Clock) (m ip : String),
      (dedup ip ((parse none clk.nowUtcIso m).priority.getD 0)
          ((parse none clk.nowUtcIso m).message.getD "") = false →
        processMessageUDP dedup clk m ip = none ∧ processMessageTLS dedup clk m ip = none) ∧
      (dedup ip ((parse none clk.nowUtcIso m).priority.getD 0)
          ((parse none clk.nowUtcIso m).message.getD "") = true →
        processMessageUDP dedup clk m ip =
          some { parse none clk.nowUtcIso m with
                 source_ip := some ip, received_at := some clk.nowIso } ∧
        processMessageTLS dedup clk m ip =
          some { parse none clk.nowUtcIso m with
                 source_ip := some ip, received_at := some clk.utcnowIso }) := by
  intro dedup clk m ip
  constructor <;> intro h <;>
    simp [processMessageUDP, processMessageTLS, processMessage, h]

theorem c3_pipeline_order_witness :
    processMessageUDP (fun _ _ _ => true) ⟨"L", "U", "Z"⟩ "<13>hi" "1.2.3.4" =
      some { parse none "Z" "<13>hi" with
             source_ip := some "1.2.3.4", received_at := some "L" } :=
  ((c3_pipeline_order (fun _ _ _ => true) ⟨"L", "U", "Z"⟩ "<13>hi" "1.2.3.4").2 rfl).1

/-!  The deduplicator claim. -/

theorem dLookup_insert_self (k : DedupKey) (t : Int) (s : List (DedupKey × Int)) :
    dLookup k (dInsert k t s) = some t := by
  induction s with
  | nil => simp [dInsert, dLookup]
  | cons e rest ih =>
    obtain ⟨k0, t0⟩ := e
    by_cases h : k0 = k
    · simp [dInsert, dLookup, h]
    · simp [dInsert, dLookup, h, ih]

theorem shouldWrite_in_window (d : DedupState) (now : Int) (s : String) (p : Int) (m : String)
    (t1 : Int) (hl : dLookup (s, p, m) d.seen = some t1)
    (hw : now - t1 < 60 * d.windowMinutes) :
    shouldWrite d now s p m = (false, d) := by
  simp only [shouldWrite, hl, if_pos hw]

theorem shouldWrite_fresh (d : DedupState) (now : Int) (s : String) (p : Int) (m : String)
    (hl : dLookup (s, p, m) d.seen = none) :
    shouldWrite d now s p m = (true, { d with seen := dInsert (s, p, m) now d.seen }) := by
  simp only [shouldWrite, hl]

theorem runShouldWrites_dup (s : String) (p : Int) (m : String) (t1 : Int) :
    ∀ (ts : List Int) (d : DedupState),
      dLookup (s, p, m) d.seen = some t1 →
      (∀ t ∈ ts, t - t1 < 60 * d.windowMinutes) →
      runShouldWrites d (s, p, m) ts = (List.replicate ts.length false, d) := by
  intro ts
  induction ts with
  | nil => intro d _ _; rfl
  | cons t ts ih =>
    intro d hl hw
    simp only [runShouldWrites, shouldWrite_in_window d t s p m t1 hl (hw t (by simp))]
    rw [ih d hl (fun t ht => hw t (by simp [ht]))]
    simp [List.replicate]

/-- C5: for a key not yet stored, a sequence of should_write calls at
instants all within the window of the first call keeps exactly the
first (which stores its instant) and drops all others (which leave
the state untouched); in general a call answering true stores the
current time against the key and a call answering false leaves the
map unchanged. -/
theorem c5_dedup_window (d : DedupState) (s : String) (p : Int) (m : String)
    (t1 : Int) (ts : List Int)
    (hfresh : dLookup (s, p, m) d.seen = none)
    (hwin : ∀ t ∈ ts, t - t1 < 60 * d.windowMinutes) :
    (runShouldWrites d (s, p, m) (t1 :: ts)).1 = true :: List.replicate ts.length false ∧
    dLookup (s, p, m) (runShouldWrites d (s, p, m) (t1 :: ts)).2.seen = some t1 ∧
    (∀ (d0 : DedupState) (now : Int),
        (shouldWrite d0 now s p m).1 = true →
        dLookup (s, p, m) (shouldWrite d0 now s p m).2.seen = some now) ∧
    (∀ (d0 : DedupState) (now : Int),
        (shouldWrite d0 now s p m).1 = false →
        (shouldWrite d0 now s p m).2 = d0) := by
  have hfirst := shouldWrite_fresh d t1 s p m hfresh
  have hrest : runShouldWrites { d with seen := dInsert (s, p, m) t1 d.seen } (s, p, m) ts =
      (List.replicate ts.length false, { d with seen := dInsert (s, p, m) t1 d.seen }) :=
    runShouldWrites_dup s p m t1 ts _ (dLookup_insert_self (s, p, m) t1 d.seen) hwin
  refine ⟨?_, ?_, ?_, ?_⟩
  · simp only [runShouldWrites, hfirst, hrest]
  · simp only [runShouldWrites, hfirst, hrest]
    exact dLookup_insert_self (s, p, m) t1 d.seen
  · intro d0 now htrue
    cases hl : dLookup (s, p, m) d0.seen with
    | none =>
      rw [shouldWrite_fresh d0 now s p m hl]
      simpa using dLookup_insert_self (s, p, m) now d0.seen
    | some lastSeen =>
      by_cases hwin0 : now - lastSeen < 60 * d0.windowMinutes
      · rw [shouldWrite_in_window d0 now s p m lastSeen hl hwin0] at htrue
        cases htrue
      · have hupd : shouldWrite d0 now s p m =
            (true, { d0 with seen := dInsert (s, p, m) now d0.seen }) := by
          simp only [shouldWrite, hl, if_neg hwin0]
        rw [hupd]
        simpa using dLookup_insert_self (s, p, m) now d0.seen
  · intro d0 now hfalse
    cases hl : dLookup (s, p, m) d0.seen with
    | none => rw [shouldWrite_fresh d0 now s p m hl] at hfalse; cases hfalse
    | some lastSeen =>
      by_cases hwin0 : now - lastSeen < 60 * d0.windowMinutes
      · rw [shouldWrite_in_window d0 now s p m lastSeen hl hwin0]
      · have hupd : shouldWrite d0 now s p m =
            (true, { d0 with seen := dInsert (s, p, m) now d0.seen }) := by
          simp only [shouldWrite, hl, if_neg hwin0]
        rw [hupd] at hfalse
        cases hfalse

theorem c5_dedup_window_witness :
    (runShouldWrites ⟨10, []⟩ ("1.1.1.1", 14, "m") [0, 5, 30]).1 = [true, false, false] ∧
    dLookup ("1.1.1.1", 14, "m")
      (runShouldWrites ⟨10, []⟩ ("1.1.1.1", 14, "m") [0, 5, 30]).2.seen = some 0 := by
  have h := c5_dedup_window ⟨10, []⟩ "1.1.1.1" 14 "m" 0 [5, 30] rfl (by decide)
  exact ⟨h.1, h.2.1⟩

/-!  The parser claims. -/

/-- C7: parse is total and always returns a record carrying the
original text as raw with priority, severity and message set; the
internal-failure path, modelled by exception injection since every
operation of the embedded body is total, returns severity "error",
the original text as message, and the failure text in parse_error. -/
theorem c7_parse_never_raises (exc : Option String) (rxIso msg : String) :
    (parse exc rxIso msg).raw = some msg ∧
    (parse exc rxIso msg).priority.isSome ∧
    (parse exc rxIso msg).severity.isSome ∧
    (parse exc rxIso msg).message.isSome ∧
    (∀ e, exc = some e →
        (parse exc rxIso msg).severity = some "error" ∧
        (parse exc rxIso msg).message = some msg ∧
        (parse exc rxIso msg).parse_error = some e) := by
  cases exc with
  | some e => simp [parse]
  | none =>
    have hbody : (parseBody rxIso msg).raw = some msg ∧
        (parseBody rxIso msg).priority.isSome ∧
        (parseBody rxIso msg).severity.isSome ∧
        (parseBody rxIso msg).message.isSome := by
      unfold parseBody
      cases h5 : matchRFC5424 msg.data with
      | some g => simp [h5, rfc5424Record]
      | none =>
        cases h3 : matchRFC3164 msg.data with
        | some g => simp [h5, h3, rfc3164Record]
        | none =>
          cases hp : matchPriorityOnly msg.data with
          | some dm => obtain ⟨dd, mm⟩ := dm; simp [h5, h3, hp]
          | none => simp [h5, h3, hp]
    exact ⟨hbody.1, hbody.2.1, hbody.2.2.1, hbody.2.2.2, by simp⟩

theorem c7_parse_never_raises_witness :
    (parse (some "boom") "R" "m").severity = some "error" ∧
    (parse (some "boom") "R" "m").message = some "m" ∧
    (parse (some "boom") "R" "m").parse_error = some "boom" :=
  (c7_parse_never_raises (some "boom") "R" "m").2.2.2.2 "boom" rfl

set_option maxRecDepth 10000 in
/-- C9: for every PRI in [0, 191], parsing a priority-only message
"<PRI>rest" yields priority PRI, the facility-table name at PRI >> 3
and the severity-table name at PRI & 7, whose recomposition
facility*8 + severity gives back PRI; an index beyond either table
falls back to "unknown". -/
theorem c9_priority_roundtrip :
    (∀ (pri : Nat), pri < 192 → ∀ (rx : String),
      (parse none rx ("<" ++ toString pri ++ ">rest")).priority = some (pri : Int) ∧
      (parse none rx ("<" ++ toString pri ++ ">rest")).facility =
        some (facilityName (pri >>> 3)) ∧
      (parse none rx ("<" ++ toString pri ++ ">rest")).severity =
        some (severityName (pri &&& 7)) ∧
      (pri >>> 3) * 8 + (pri &&& 7) = pri) ∧
    (∀ n : Nat, facilityName (n + 24) = "unknown") ∧
    (∀ n : Nat, severityName (n + 8) = "unknown") := by
  refine ⟨?_, fun n => rfl, fun n => rfl⟩
  have hm : ∀ pri : Nat, pri < 192 →
      matchRFC5424 ("<" ++ toString pri ++ ">rest").data = none ∧
      matchRFC3164 ("<" ++ toString pri ++ ">rest").data = none ∧
      matchPriorityOnly ("<" ++ toString pri ++ ">rest").data =
        some ((toString pri).data, "rest".data) ∧
      digitsCharsToNat (toString pri).data = pri ∧
      (pri >>> 3) * 8 + (pri &&& 7) = pri := by decide
  intro pri hlt rx
  obtain ⟨h1, h2, h3, h4, h5⟩ := hm pri hlt
  simp only [parse, parseBody]
  rw [h1, h2, h3]
  simp [h4, h5]

theorem c9_priority_roundtrip_witness :
    (parse none "R" "<11>rest").priority = some (11 : Int) ∧
    (parse none "R" "<11>rest").facility = some "user" ∧
    (parse none "R" "<11>rest").severity = some "error" := by
  have h := c9_priority_roundtrip.1 11 (by decide) "R"
  exact ⟨h.1, h.2.1, h.2.2.1⟩

/-!  Helper lemmas about the file-system model. -/

theorem fsGet_set_self (fs : FileSys) (k : FileKey) (v : List String) :
    fsGet (fsSet fs k v) k = some v := by
  induction fs with
  | nil => simp [fsSet, fsGet]
  | cons e rest ih =>
    obtain ⟨k0, v0⟩ := e
    by_cases h : k0 = k
    · simp [fsSet, fsGet, h]
    · simp [fsSet, fsGet, h, ih]

theorem fsGet_set_ne (fs : FileSys) (k : FileKey) (v : List String) (k' : FileKey)
    (h : k' ≠ k) : fsGet (fsSet fs k v) k' = fsGet fs k' := by
  have h' : ¬ k = k' := fun hh => h hh.symm
  induction fs with
  | nil => simp only [fsSet, fsGet, if_neg h']
  | cons e rest ih =>
    obtain ⟨k0, v0⟩ := e
    by_cases h0 : k0 = k
    · subst h0
      simp only [fsSet, if_pos rfl, fsGet, if_neg h']
    · simp only [fsSet, if_neg h0, fsGet, ih]

theorem fsGet_erase_self (fs : FileSys) (k : FileKey) :
    fsGet (fsErase fs k) k = none := by
  induction fs with
  | nil => simp [fsErase, fsGet]
  | cons e rest ih =>
    obtain ⟨k0, v0⟩ := e
    by_cases h : k0 = k
    · simp only [fsErase, if_pos h, ih]
    · simp only [fsErase, if_neg h, fsGet, ih, if_neg h]

theorem fsGet_erase_ne (fs : FileSys) (k : FileKey) (k' : FileKey) (h : k' ≠ k) :
    fsGet (fsErase fs k) k' = fsGet fs k' := by
  have h' : ¬ k = k' := fun hh => h hh.symm
  induction fs with
  | nil => simp [fsErase]
  | cons e rest ih =>
    obtain ⟨k0, v0⟩ := e
    by_cases h0 : k0 = k
    · subst h0
      simp [fsErase, fsGet, h', ih]
    · simp [fsErase, h0, fsGet, ih]

theorem fsGet_rename_to (fs : FileSys) (a b : FileKey) (v : List String)
    (h : fsGet fs a = some v) : fsGet (fsRename fs a b) b = some v := by
  simp only [fsRename, h]
  exact fsGet_set_self _ b v

theorem fsGet_rename_from (fs : FileSys) (a b : FileKey) (v : List String)
    (h : fsGet fs a = some v) (hab : a ≠ b) : fsGet (fsRename fs a b) a = none := by
  simp only [fsRename, h]
  rw [fsGet_set_ne _ b v a hab]
  exact fsGet_erase_self fs a

theorem fsGet_rename_other (fs : FileSys) (a b k : FileKey)
    (hka : k ≠ a) (hkb : k ≠ b) : fsGet (fsRename fs a b) k = fsGet fs k := by
  cases h : fsGet fs a with
  | none => simp [fsRename, h]
  | some v =>
    simp only [fsRename, h]
    rw [fsGet_set_ne _ b v k hkb]
    exact fsGet_erase_ne fs a k hka

theorem rotStep_other (nm : String) (fs : FileSys) (i : Nat) (k : FileKey)
    (h1 : k ≠ (nm, some i)) (h2 : k ≠ (nm, some (i + 1))) :
    fsGet (rotStep nm fs i) k = fsGet fs k := by
  unfold rotStep
  by_cases hold : (fsGet fs (nm, some i)).isSome
  · rw [if_pos hold]
    by_cases hnew : (fsGet fs (nm, some (i + 1))).isSome
    · rw [if_pos hnew, fsGet_rename_other _ _ _ _ h1 h2, fsGet_erase_ne _ _ _ h2]
    · rw [if_neg hnew, fsGet_rename_other _ _ _ _ h1 h2]
  · rw [if_neg hold]

theorem rotStep_shift (nm : String) (fs : FileSys) (i : Nat) (g : List String)
    (h : fsGet fs (nm, some i) = some g) :
    fsGet (rotStep nm fs i) (nm, some (i + 1)) = some g := by
  unfold rotStep
  rw [if_pos (by simp [h])]
  have hne : ((nm, some i) : FileKey) ≠ (nm, some (i + 1)) := by
    simp only [ne_eq, Prod.mk.injEq, Option.some.injEq]
    omega
  by_cases hnew : (fsGet fs (nm, some (i + 1))).isSome
  · rw [if_pos hnew]
    exact fsGet_rename_to _ _ _ g (by rw [fsGet_erase_ne _ _ _ hne]; exact h)
  · rw [if_neg hnew]
    exact fsGet_rename_to _ _ _ g h

theorem rotateBackups_other (nm : String) :
    ∀ (k : Nat) (fs : FileSys) (key : FileKey),
      (∀ j, 1 ≤ j → j ≤ k + 1 → key ≠ (nm, some j)) →
      fsGet (rotateBackups nm fs k) key = fsGet fs key := by
  intro k
  induction k with
  | zero => intro fs key _; rfl
  | succ k ih =>
    intro fs key h
    show fsGet (rotateBackups nm (rotStep nm fs (k + 1)) k) key = _
    rw [ih _ _ (fun j h1 h2 => h j h1 (by omega))]
    exact rotStep_other nm fs (k + 1) key (h (k + 1) (by omega) (by omega))
      (h (k + 2) (by omega) (by omega))

theorem rotateBackups_shift (nm : String) :
    ∀ (k : Nat) (fs : FileSys) (i : Nat) (g : List String),
      1 ≤ i → i ≤ k → fsGet fs (nm, some i) = some g →
      fsGet (rotateBackups nm fs k) (nm, some (i + 1)) = some g := by
  intro k
  induction k with
  | zero => intro fs i g h1 h2 _; omega
  | succ k ih =>
    intro fs i g h1 h2 hg
    show fsGet (rotateBackups nm (rotStep nm fs (k + 1)) k) (nm, some (i + 1)) = some g
    by_cases hik : i = k + 1
    · subst hik
      rw [rotateBackups_other nm k _ _ (fun j hj1 hj2 => by
        simp only [ne_eq, Prod.mk.injEq, Option.some.injEq, true_and]
        omega)]
      exact rotStep_shift nm fs (k + 1) g hg
    · have h2' : i ≤ k := by omega
      refine ih _ i g h1 h2' ?_
      rw [rotStep_other nm fs (k + 1) _ ?_ ?_]
      · exact hg
      · simp only [ne_eq, Prod.mk.injEq, Option.some.injEq, true_and]
        omega
      · simp only [ne_eq, Prod.mk.injEq, Option.some.injEq, true_and]
        omega

theorem rotateFile_active (w : WriterState) (sev : String) (f : List String)
    (hf : fsGet w.fs (fileNameFor sev, none) = some f) :
    fsGet (rotateFile w sev).fs (fileNameFor sev, some 1) = some f ∧
    fsGet (rotateFile w sev).fs (fileNameFor sev, none) = none := by
  have h1 : fsGet (rotateBackups (fileNameFor sev) w.fs (w.backupCount - 1))
      (fileNameFor sev, none) = some f := by
    rw [rotateBackups_other _ _ _ _ (fun j _ _ => by simp)]
    exact hf
  constructor
  · show fsGet (if _ then _ else _) _ = some f
    rw [if_pos (by simp [h1])]
    exact fsGet_rename_to _ _ _ f h1
  · show fsGet (if _ then _ else _) _ = none
    rw [if_pos (by simp [h1])]
    exact fsGet_rename_from _ _ _ f h1 (by simp)

theorem rotateFile_shift (w : WriterState) (sev : String) (i : Nat) (g : List String)
    (h1 : 1 ≤ i) (h2 : i ≤ w.backupCount - 1)
    (hg : fsGet w.fs (fileNameFor sev, some i) = some g) :
    fsGet (rotateFile w sev).fs (fileNameFor sev, some (i + 1)) = some g := by
  have hs : fsGet (rotateBackups (fileNameFor sev) w.fs (w.backupCount - 1))
      (fileNameFor sev, some (i + 1)) = some g := by
    rcases Nat.exists_eq_add_of_le h2 with ⟨c, hc⟩
    exact rotateBackups_shift _ _ _ i g h1 (by omega) hg
  show fsGet (if _ then _ else _) _ = some g
  by_cases hact : (fsGet (rotateBackups (fileNameFor sev) w.fs (w.backupCount - 1))
      (fileNameFor sev, none)).isSome
  · rw [if_pos hact, fsGet_rename_other _ _ _ _ (by simp) (by
      simp only [ne_eq, Prod.mk.injEq, Option.some.injEq, true_and]
      omega)]
    exact hs
  · rw [if_neg hact]
    exact hs

theorem rotateFile_other_base (w : WriterState) (sev : String) (key : FileKey)
    (hbase : key.1 ≠ fileNameFor sev) :
    fsGet (rotateFile w sev).fs key = fsGet w.fs key := by
  have hb : ∀ o : Option Nat, key ≠ (fileNameFor sev, o) := by
    intro o heq
    exact hbase (by rw [heq])
  have h1 : fsGet (rotateBackups (fileNameFor sev) w.fs (w.backupCount - 1)) key =
      fsGet w.fs key :=
    rotateBackups_other _ _ _ _ (fun j _ _ => hb (some j))
  show fsGet (if _ then _ else _) _ = _
  by_cases hact : (fsGet (rotateBackups (fileNameFor sev) w.fs (w.backupCount - 1))
      (fileNameFor sev, none)).isSome
  · rw [if_pos hact, fsGet_rename_other _ _ _ _ (hb none) (hb (some 1))]
    exact h1
  · rw [if_neg hact]
    exact h1

theorem ensureHandle_fs (w : WriterState) (sev : String) (hc : w.isClosed = false) :
    (fsGet (ensureHandle w sev).fs (fileNameFor sev, none)).getD [] =
      (fsGet w.fs (fileNameFor sev, none)).getD [] ∧
    (∀ key, key ≠ ((fileNameFor sev, none) : FileKey) →
        fsGet (ensureHandle w sev).fs key = fsGet w.fs key) ∧
    sev ∈ (ensureHandle w sev).handles := by
  by_cases hmem : sev ∈ w.handles
  · have hE : ensureHandle w sev = w := by
      unfold ensureHandle
      rw [hc, if_neg Bool.false_ne_true, if_pos hmem]
    rw [hE]
    exact ⟨rfl, fun key _ => rfl, hmem⟩
  · cases hnm : fsGet w.fs (fileNameFor sev, none) with
    | some v =>
      have hE : ensureHandle w sev = { w with handles := sev :: w.handles } := by
        unfold ensureHandle
        rw [hc, if_neg Bool.false_ne_true, if_neg hmem]
        simp only [hnm]
      rw [hE]
      exact ⟨by show (fsGet w.fs _).getD [] = _; rw [hnm], fun key _ => rfl,
        List.mem_cons_self sev w.handles⟩
    | none =>
      have hE : ensureHandle w sev =
          { w with fs := fsSet w.fs (fileNameFor sev, none) [],
                   handles := sev :: w.handles } := by
        unfold ensureHandle
        rw [hc, if_neg Bool.false_ne_true, if_neg hmem]
        simp only [hnm]
      rw [hE]
      refine ⟨?_, fun key hk => fsGet_set_ne _ _ _ _ hk, List.mem_cons_self sev w.handles⟩
      show (fsGet (fsSet w.fs (fileNameFor sev, none) []) (fileNameFor sev, none)).getD [] = _
      rw [fsGet_set_self]
      rfl

theorem writeRec_fs (ser : Record → String) (w : WriterState) (r : Record)
    (hc : w.isClosed = false) :
    fsGet (writeRec ser w r).fs (fileNameFor (bucketOf r), none) =
      some ((fsGet (if shouldRotate w (bucketOf r) then rotateFile w (bucketOf r) else w).fs
          (fileNameFor (bucketOf r), none)).getD [] ++ [ser r]) ∧
    (∀ key, key ≠ ((fileNameFor (bucketOf r), none) : FileKey) →
        fsGet (writeRec ser w r).fs key =
          fsGet (if shouldRotate w (bucketOf r) then rotateFile w (bucketOf r) else w).fs key) ∧
    bucketOf r ∈ (writeRec ser w r).handles := by
  have hc1 : (if shouldRotate w (bucketOf r) then rotateFile w (bucketOf r) else w).isClosed
      = false := by
    by_cases h : shouldRotate w (bucketOf r) <;> simp [h, rotateFile, hc]
  have he := ensureHandle_fs (if shouldRotate w (bucketOf r) then rotateFile w (bucketOf r)
      else w) (bucketOf r) hc1
  have hw : writeRec ser w r =
      { ensureHandle (if shouldRotate w (bucketOf r) then rotateFile w (bucketOf r) else w)
          (bucketOf r) with
        fs := fsSet (ensureHandle (if shouldRotate w (bucketOf r) then rotateFile w (bucketOf r)
            else w) (bucketOf r)).fs (fileNameFor (bucketOf r), none)
          ((fsGet (ensureHandle (if shouldRotate w (bucketOf r) then rotateFile w (bucketOf r)
              else w) (bucketOf r)).fs (fileNameFor (bucketOf r), none)).getD [] ++ [ser r]) } := by
    unfold writeRec
    rw [hc, if_neg Bool.false_ne_true]
  rw [hw]
  refine ⟨?_, ?_, he.2.2⟩
  · rw [fsGet_set_self, he.1]
  · intro key hk
    rw [fsGet_set_ne _ _ _ _ hk]
    exact he.2.1 key hk

/-- C6: when the active file of the record's severity exists with
size at least max_bytes, write rotates before appending: backups
shift i to i+1 for i from backup_count-1 down to 1 (deleting any
pre-existing target), the active file becomes <name>.log.1, the
append goes to a fresh active file holding only the new line, and a
handle for the severity is cached afterwards. -/
theorem c6_rotation (ser : Record → String) (w : WriterState) (r : Record) (f : List String)
    (hc : w.isClosed = false)
    (hf : fsGet w.fs (fileNameFor (bucketOf r), none) = some f)
    (hsz : w.maxBytes ≤ fileSize f) :
    fsGet (writeRec ser w r).fs (fileNameFor (bucketOf r), none) = some [ser r] ∧
    fsGet (writeRec ser w r).fs (fileNameFor (bucketOf r), some 1) = some f ∧
    (∀ i g, 1 ≤ i → i ≤ w.backupCount - 1 →
        fsGet w.fs (fileNameFor (bucketOf r), some i) = some g →
        fsGet (writeRec ser w r).fs (fileNameFor (bucketOf r), some (i + 1)) = some g) ∧
    bucketOf r ∈ (writeRec ser w r).handles := by
  have hrot : shouldRotate w (bucketOf r) = true := by
    simp [shouldRotate, hf, hsz]
  have h := writeRec_fs ser w r hc
  rw [hrot, if_pos rfl] at h
  have hact := rotateFile_active w (bucketOf r) f hf
  refine ⟨?_, ?_, ?_, h.2.2⟩
  · rw [h.1, hact.2]
    rfl
  · rw [h.2.1 _ (by simp)]
    exact hact.1
  · intro i g h1 h2 hg
    rw [h.2.1 _ (by simp)]
    exact rotateFile_shift w (bucketOf r) i g h1 h2 hg

theorem c6_rotation_witness :
    (fsGet (writeRec (fun _ => "S")
        ⟨[(("info.log", none), ["x"]), (("info.log", some 1), ["old"])], [], 1, 5, false⟩
        { severity := some "info" }).fs ("info.log", none) = some ["S"]) ∧
    (fsGet (writeRec (fun _ => "S")
        ⟨[(("info.log", none), ["x"]), (("info.log", some 1), ["old"])], [], 1, 5, false⟩
        { severity := some "info" }).fs ("info.log", some 1) = some ["x"]) ∧
    (fsGet (writeRec (fun _ => "S")
        ⟨[(("info.log", none), ["x"]), (("info.log", some 1), ["old"])], [], 1, 5, false⟩
        { severity := some "info" }).fs ("info.log", some 2) = some ["old"]) := by
  have h := c6_rotation (fun _ => "S")
    ⟨[(("info.log", none), ["x"]), (("info.log", some 1), ["old"])], [], 1, 5, false⟩
    { severity := some "info" } ["x"] rfl (by decide) (by decide)
  exact ⟨h.1, h.2.1, h.2.2.1 1 ["old"] (by decide) (by decide) (by decide)⟩

/-- C10: a record with no severity key at all is routed to the info
bucket and appended to info.log, leaving unknown.log untouched; only
a record whose severity value is present but outside the eight known
names lands in the unknown bucket. -/
theorem c10_default_severity_info (ser : Record → String) (w : WriterState) (r : Record)
    (hc : w.isClosed = false) (hs : r.severity = none) :
    bucketOf r = "info" ∧
    (∀ (r2 : Record) (s : String), r2.severity = some s → severityFileName s = none →
        bucketOf r2 = "unknown") ∧
    ((fsGet (writeRec ser w r).fs ("info.log", none)).getD []).getLast? = some (ser r) ∧
    fsGet (writeRec ser w r).fs ("unknown.log", none) = fsGet w.fs ("unknown.log", none) := by
  have hb : bucketOf r = "info" := by simp [bucketOf, hs, severityFileName]
  have hfn : fileNameFor (bucketOf r) = "info.log" := by
    rw [hb]
    rfl
  have h := writeRec_fs ser w r hc
  rw [hfn] at h
  refine ⟨hb, ?_, ?_, ?_⟩
  · intro r2 s hs2 hnone
    simp [bucketOf, hs2, hnone]
  · rw [h.1]
    simp
  · rw [h.2.1 _ (by simp)]
    by_cases hr : shouldRotate w (bucketOf r)
    · rw [if_pos hr]
      refine rotateFile_other_base w (bucketOf r) _ ?_
      rw [hfn]
      simp
    · rw [if_neg hr]

theorem c10_default_severity_info_witness :
    bucketOf {} = "info" ∧
    ((fsGet (writeRec (fun _ => "S") ⟨[], [], 100, 5, false⟩ {}).fs
        ("info.log", none)).getD []).getLast? = some "S" ∧
    bucketOf { severity := some "wat" } = "unknown" := by
  have h := c10_default_severity_info (fun _ => "S") ⟨[], [], 100, 5, false⟩ {} rfl rfl
  exact ⟨h.1, h.2.2.1, h.2.1 { severity := some "wat" } "wat" rfl rfl⟩

/-!  Helper lemmas for the framing stream: digit bytes, the integer
conversion on pure digit runs, slices at frame boundaries. -/

theorem digit_bounds {c : Nat} (h : isDigitByte c = true) : 48 ≤ c ∧ c ≤ 57 := by
  simpa [isDigitByte] using h

theorem digit_not_space {c : Nat} (h : isDigitByte c = true) : isIntSpaceByte c = false := by
  obtain ⟨h1, h2⟩ := digit_bounds h
  simp only [isIntSpaceByte]
  simp only [Bool.or_eq_false_iff, Bool.and_eq_false_iff]
  exact ⟨Or.inr (by simp; omega), by simp; omega⟩

theorem digit_ne_32 {c : Nat} (h : isDigitByte c = true) : c ≠ 32 := by
  obtain ⟨h1, _⟩ := digit_bounds h
  omega

theorem dropWhile_eq_self_of_all (p : Nat → Bool) (l : List Nat)
    (h : ∀ c ∈ l, p c = false) : l.dropWhile p = l := by
  cases l with
  | nil => rfl
  | cons a l =>
    rw [List.dropWhile_cons, if_neg]
    simp [h a (by simp)]

theorem stripUnderscore_digits (l : List Nat) (h : ∀ c ∈ l, isDigitByte c = true) :
    stripUnderscoreSeps l = some l := by
  induction l with
  | nil => rfl
  | cons c rest ih =>
    unfold stripUnderscoreSeps
    rw [if_pos (h c (by simp)), ih (fun x hx => h x (by simp [hx]))]
    rfl

theorem pyDigitPart_digits (l : List Nat) (hne : l ≠ []) (h : ∀ c ∈ l, isDigitByte c = true) :
    pyDigitPart l = some (digitsToNat l) := by
  cases l with
  | nil => cases hne rfl
  | cons c rest =>
    show (if isDigitByte c = true then Option.map digitsToNat (stripUnderscoreSeps (c :: rest))
        else none) = some (digitsToNat (c :: rest))
    rw [if_pos (h c (by simp)), stripUnderscore_digits _ h]
    rfl

theorem pyParseIntAscii_digits (l : List Nat) (hne : l ≠ [])
    (h : ∀ c ∈ l, isDigitByte c = true) :
    pyParseIntAscii l = some ((digitsToNat l : Int)) := by
  unfold pyParseIntAscii
  have hall : l.all (· < 128) = true := by
    rw [List.all_eq_true]
    intro c hc
    have := (digit_bounds (h c hc)).2
    simp
    omega
  rw [if_pos hall]
  have hd1 : l.dropWhile isIntSpaceByte = l :=
    dropWhile_eq_self_of_all _ _ (fun c hc => digit_not_space (h c hc))
  have hd2 : l.reverse.dropWhile isIntSpaceByte = l.reverse :=
    dropWhile_eq_self_of_all _ _ (fun c hc => digit_not_space (h c (List.mem_reverse.mp hc)))
  rw [hd1, hd2, List.reverse_reverse]
  cases l with
  | nil => cases hne rfl
  | cons c rest =>
    have hc := digit_bounds (h c (by simp))
    have h43 : ¬ c = 43 := by omega
    have h45 : ¬ c = 45 := by omega
    simp only [if_neg h43, if_neg h45, pyDigitPart_digits (c :: rest) (by simp) h]
    rfl

theorem findByte_none (c : Nat) (l : List Nat) (h : ∀ x ∈ l, x ≠ c) :
    findByte c l = none := by
  induction l with
  | nil => rfl
  | cons a l ih =>
    unfold findByte
    rw [if_neg (h a (by simp)), ih (fun x hx => h x (by simp [hx]))]
    rfl

theorem findByte_append (c : Nat) (l r : List Nat) (h : ∀ x ∈ l, x ≠ c) :
    findByte c (l ++ c :: r) = some l.length := by
  induction l with
  | nil => simp [findByte]
  | cons a l ih =>
    show findByte c (a :: (l ++ c :: r)) = some (l.length + 1)
    unfold findByte
    rw [if_neg (h a (by simp)), ih (fun x hx => h x (by simp [hx]))]
    rfl

theorem pySlice_nonneg (l : List Nat) (s e : Nat) :
    pySlice l (s : Int) (e : Int) = (l.take e).drop s := by
  unfold pySlice pyIndexNorm
  rw [if_neg (by omega : ¬ ((e : Int) < 0)), if_neg (by omega : ¬ ((s : Int) < 0)),
    Int.toNat_natCast, Int.toNat_natCast]
  rcases Nat.le_total e l.length with he | he
  · rw [Nat.min_eq_left he]
    rcases Nat.le_total s l.length with hs | hs
    · rw [Nat.min_eq_left hs]
    · rw [Nat.min_eq_right hs, List.drop_of_length_le (by rw [List.length_take]; omega),
        List.drop_of_length_le (by rw [List.length_take]; omega)]
  · rw [Nat.min_eq_right he, List.take_length, List.take_of_length_le he]
    rcases Nat.le_total s l.length with hs | hs
    · rw [Nat.min_eq_left hs]
    · rw [Nat.min_eq_right hs, List.drop_of_length_le (Nat.le_refl _),
        List.drop_of_length_le hs]

theorem pySliceFrom_nonneg (l : List Nat) (s : Nat) :
    pySliceFrom l (s : Int) = l.drop s := by
  unfold pySliceFrom pyIndexNorm
  rw [if_neg (by omega : ¬ ((s : Int) < 0)), Int.toNat_natCast]
  rcases Nat.le_total s l.length with hs | hs
  · rw [Nat.min_eq_left hs]
  · rw [Nat.min_eq_right hs, List.drop_of_length_le (Nat.le_refl _),
      List.drop_of_length_le hs]

theorem encodeFrame_as_append (f : Frame) (rest : List Nat) :
    encodeFrame f ++ rest = f.digits ++ 32 :: (f.payload ++ rest) := by
  simp [encodeFrame]

theorem tryExtract_frame (mml mbs : Nat) (f : Frame) (rest : List Nat) (hwf : f.wf mml) :
    tryExtractOne ⟨encodeFrame f ++ rest, mml, mbs⟩ =
      ExtractResult.message (decodeFrame f) ⟨rest, mml, mbs⟩ := by
  obtain ⟨hne, hdig, hval, hlen⟩ := hwf
  rw [encodeFrame_as_append]
  have hfind : findByte 32 (f.digits ++ 32 :: (f.payload ++ rest)) = some f.digits.length :=
    findByte_append _ _ _ (fun x hx => digit_ne_32 (hdig x hx))
  have htake : (f.digits ++ 32 :: (f.payload ++ rest)).take f.digits.length = f.digits := by
    rw [List.take_append_of_le_length (Nat.le_refl _), List.take_length]
  have hparse : pyParseIntAscii f.digits = some ((f.payload.length : Int)) := by
    rw [pyParseIntAscii_digits f.digits hne hdig, hval]
  have hlen2 : (f.digits ++ 32 :: (f.payload ++ rest)).length =
      f.digits.length + 1 + f.payload.length + rest.length := by
    simp
    omega
  simp only [tryExtractOne, hfind, htake, hparse]
  rw [if_neg (by omega : ¬ ((mml : Nat) : Int) < ((f.payload.length : Nat) : Int))]
  rw [if_neg (by
    rw [hlen2]
    push_cast
    omega : ¬ (((f.digits ++ 32 :: (f.payload ++ rest)).length : Nat) : Int) <
      (f.digits.length : Int) + 1 + (f.payload.length : Int))]
  have hslice : pySlice (f.digits ++ 32 :: (f.payload ++ rest))
      ((f.digits.length : Int) + 1) ((f.digits.length : Int) + 1 + (f.payload.length : Int)) =
      f.payload := by
    rw [show ((f.digits.length : Int) + 1) = ((f.digits.length + 1 : Nat) : Int) by push_cast; ring,
      show ((f.digits.length + 1 : Nat) : Int) + (f.payload.length : Int) =
        ((f.digits.length + 1 + f.payload.length : Nat) : Int) by push_cast; ring,
      pySlice_nonneg]
    have hform : f.digits ++ 32 :: (f.payload ++ rest) =
        ((f.digits ++ [32]) ++ f.payload) ++ rest := by
      simp
    rw [hform,
      List.take_append_of_le_length (by simp; omega),
      List.take_of_length_le (by simp; omega),
      show f.digits.length + 1 = (f.digits ++ [32]).length by simp,
      List.drop_left]
  have hdrop : pySliceFrom (f.digits ++ 32 :: (f.payload ++ rest))
      ((f.digits.length : Int) + 1 + (f.payload.length : Int)) = rest := by
    rw [show (f.digits.length : Int) + 1 + (f.payload.length : Int) =
        ((f.digits.length + 1 + f.payload.length : Nat) : Int) by push_cast; ring,
      pySliceFrom_nonneg]
    have hform : f.digits ++ 32 :: (f.payload ++ rest) =
        (f.digits ++ 32 :: f.payload) ++ rest := by
      simp
    rw [hform, show f.digits.length + 1 + f.payload.length =
        (f.digits ++ 32 :: f.payload).length by simp; omega,
      List.drop_left]
  simp only [extractAndDecode]
  rw [hslice, hdrop]
  rfl

theorem blocked_needData (mml mbs : Nat) (u : List Nat) (hu : blockedBuf u mml)
    (hne : u ≠ []) : tryExtractOne ⟨u, mml, mbs⟩ = ExtractResult.needData := by
  rcases hu with rfl | ⟨f, t, hwf, heq, htne⟩
  · cases hne rfl
  obtain ⟨hdne, hdig, hval, hlen⟩ := hwf
  have hlenu : u.length < (encodeFrame f).length := by
    have : u.length + t.length = (encodeFrame f).length := by
      rw [← heq]
      simp
    have ht : t.length ≠ 0 := fun hz => htne (List.eq_nil_of_length_eq_zero hz)
    omega
  have hencLen : (encodeFrame f).length = f.digits.length + 1 + f.payload.length := by
    simp [encodeFrame]
    omega
  by_cases hcase : u.length ≤ f.digits.length
  · -- u is a prefix of the digit run: no space byte in the buffer
    have hu2 : u = f.digits.take u.length := by
      have h1 : (u ++ t).take u.length = u := by
        rw [List.take_append_of_le_length (Nat.le_refl _), List.take_length]
      rw [heq] at h1
      have h2 : (encodeFrame f).take u.length = f.digits.take u.length := by
        rw [encodeFrame, List.take_append_of_le_length hcase]
      exact h1.symm.trans h2
    have hfind : findByte 32 u = none := by
      refine findByte_none _ _ (fun x hx => ?_)
      rw [hu2] at hx
      exact digit_ne_32 (hdig x (List.mem_of_mem_take hx))
    simp [tryExtractOne, hfind]
  · -- u covers the digits and the space: a frame longer than the buffer
    push_neg at hcase
    set k := u.length - (f.digits.length + 1) with hk
    have hkp : k < f.payload.length := by
      rw [hencLen] at hlenu
      omega
    have hu2 : u = f.digits ++ 32 :: f.payload.take k := by
      have h1 : (u ++ t).take u.length = u := by
        rw [List.take_append_of_le_length (Nat.le_refl _), List.take_length]
      rw [heq] at h1
      have h2 : (encodeFrame f).take u.length = f.digits ++ 32 :: f.payload.take k := by
        rw [encodeFrame, List.take_append_eq_append_take,
          List.take_of_length_le (by omega),
          show u.length - f.digits.length = k + 1 by omega,
          List.take_succ_cons]
      exact h1.symm.trans h2
    have hfind : findByte 32 u = some f.digits.length := by
      rw [hu2]
      exact findByte_append _ _ _ (fun x hx => digit_ne_32 (hdig x hx))
    have htake : u.take f.digits.length = f.digits := by
      rw [hu2, List.take_append_of_le_length (Nat.le_refl _), List.take_length]
    have hparse : pyParseIntAscii f.digits = some ((f.payload.length : Int)) := by
      rw [pyParseIntAscii_digits f.digits hdne hdig, hval]
    have hulen : u.length = f.digits.length + 1 + k := by
      rw [hu2]
      simp
      omega
    simp only [tryExtractOne, hfind, htake, hparse]
    rw [if_neg (by omega : ¬ ((mml : Nat) : Int) < ((f.payload.length : Nat) : Int))]
    rw [if_pos (by rw [hulen]; push_cast; omega :
      ((u.length : Nat) : Int) < (f.digits.length : Int) + 1 + (f.payload.length : Int))]

theorem encodeFrame_ne_nil (f : Frame) : encodeFrame f ≠ [] := by
  simp [encodeFrame]

theorem frameStream_append (a b : List Frame) :
    frameStream (a ++ b) = frameStream a ++ frameStream b := by
  simp [frameStream]

theorem extractAll_frames (mml mbs : Nat) :
    ∀ (fs : List Frame) (u : List Nat),
      (∀ f ∈ fs, f.wf mml) → blockedBuf u mml →
      extractAllMessages (fs.length + 1) ⟨frameStream fs ++ u, mml, mbs⟩ =
        some (fs.map decodeFrame, ⟨u, mml, mbs⟩) := by
  intro fs
  induction fs with
  | nil =>
    intro u hf hu
    show extractAllMessages 1 ⟨u, mml, mbs⟩ = some ([], ⟨u, mml, mbs⟩)
    rw [extractAllMessages]
    by_cases hne : u = []
    · rw [if_pos (by simp [hne])]
    · rw [if_neg (by simp [hne]), blocked_needData mml mbs u hu hne]
  | cons f fs ih =>
    intro u hf hu
    have hstream : frameStream (f :: fs) ++ u = encodeFrame f ++ (frameStream fs ++ u) := by
      simp [frameStream]
    rw [hstream]
    show extractAllMessages ((fs.length + 1) + 1) _ = _
    rw [extractAllMessages]
    rw [if_neg (by
      simp only []
      intro hnil
      exact encodeFrame_ne_nil f (List.append_eq_nil.mp hnil).1)]
    rw [tryExtract_frame mml mbs f _ (hf f (by simp))]
    show Option.map (fun p => (decodeFrame f :: p.1, p.2))
        (extractAllMessages (fs.length + 1) ⟨frameStream fs ++ u, mml, mbs⟩) =
      some (List.map decodeFrame (f :: fs), ⟨u, mml, mbs⟩)
    rw [ih u (fun g hg => hf g (by simp [hg])) hu]
    rfl

theorem extractAll_mono :
    ∀ (n m : Nat), n ≤ m → ∀ (st : ReaderState) (r : List String × ReaderState),
      extractAllMessages n st = some r → extractAllMessages m st = some r := by
  intro n
  induction n with
  | zero =>
    intro m _ st r h
    exact absurd h (by simp [extractAllMessages])
  | succ n ih =>
    intro m hm st r h
    obtain ⟨m', rfl⟩ : ∃ m', m = m' + 1 := ⟨m - 1, by omega⟩
    rw [extractAllMessages] at h ⊢
    by_cases hb : st.buffer = []
    · rwa [if_pos hb] at h ⊢
    · rw [if_neg hb] at h ⊢
      cases he : tryExtractOne st with
      | needData => rw [he] at h; exact h
      | recovery st' => rw [he] at h; exact ih m' (by omega) st' r h
      | message msg st' =>
        rw [he] at h
        have h' : Option.map (fun p => (msg :: p.1, p.2)) (extractAllMessages n st') =
            some r := h
        show Option.map (fun p => (msg :: p.1, p.2)) (extractAllMessages m' st') = some r
        cases hrec : extractAllMessages n st' with
        | none => rw [hrec] at h'; cases h'
        | some p =>
          rw [hrec] at h'
          rw [ih m' (by omega) st' p hrec]
          exact h'

theorem frame_prefix_split (mml : Nat) :
    ∀ (fs : List Frame) (P t : List Nat),
      (∀ f ∈ fs, f.wf mml) →
      P ++ t = frameStream fs →
      ∃ done rem u, fs = done ++ rem ∧ P = frameStream done ++ u ∧
        u ++ t = frameStream rem ∧ blockedBuf u mml := by
  intro fs
  induction fs with
  | nil =>
    intro P t _ heq
    have hPt : P = [] ∧ t = [] := by
      have : P ++ t = [] := by simpa [frameStream] using heq
      exact List.append_eq_nil.mp this
    exact ⟨[], [], [], by simp, by simp [frameStream, hPt.1],
      by simp [frameStream, hPt.1, hPt.2], Or.inl rfl⟩
  | cons f fs ih =>
    intro P t hw heq
    have heq2 : P ++ t = encodeFrame f ++ frameStream fs := by
      rw [heq]
      simp [frameStream]
    by_cases hc : (encodeFrame f).length ≤ P.length
    · have hPtake : P.take (encodeFrame f).length = encodeFrame f := by
        have h1 : (P ++ t).take (encodeFrame f).length = P.take (encodeFrame f).length :=
          List.take_append_of_le_length hc
        have h2 : (encodeFrame f ++ frameStream fs).take (encodeFrame f).length =
            encodeFrame f := by
          rw [List.take_append_of_le_length (Nat.le_refl _), List.take_length]
        rw [heq2] at h1
        exact h1.symm.trans h2
      have hP : P = encodeFrame f ++ P.drop (encodeFrame f).length := by
        conv_lhs => rw [← List.take_append_drop (encodeFrame f).length P]
        rw [hPtake]
      have hrest : P.drop (encodeFrame f).length ++ t = frameStream fs := by
        have : encodeFrame f ++ (P.drop (encodeFrame f).length ++ t) =
            encodeFrame f ++ frameStream fs := by
          rw [← List.append_assoc, ← hP, heq2]
        exact List.append_cancel_left this
      obtain ⟨done, rem, u, h1, h2, h3, h4⟩ :=
        ih (P.drop (encodeFrame f).length) t (fun g hg => hw g (by simp [hg])) hrest
      refine ⟨f :: done, rem, u, by simp [h1], ?_, h3, h4⟩
      rw [hP, h2]
      simp [frameStream]
    · push_neg at hc
      refine ⟨[], f :: fs, P, by simp, by simp [frameStream], heq, ?_⟩
      by_cases hPe : P = []
      · exact Or.inl hPe
      · refine Or.inr ⟨f, (encodeFrame f).drop P.length, hw f (by simp), ?_, ?_⟩
        · have h1 : (P ++ t).take P.length = P := by
            rw [List.take_append_of_le_length (Nat.le_refl _), List.take_length]
          have h2 : (encodeFrame f ++ frameStream fs).take P.length =
              (encodeFrame f).take P.length := List.take_append_of_le_length (by omega)
          rw [heq2] at h1
          have hPf : P = (encodeFrame f).take P.length := h1.symm.trans h2
          have h3 := List.take_append_drop P.length (encodeFrame f)
          rw [← hPf] at h3
          exact h3
        · intro hnil
          have := List.drop_eq_nil_iff.mp hnil
          omega

theorem feedAll_frames (mml mbs F : Nat) :
    ∀ (cs : List (List Nat)) (rem : List Frame) (u : List Nat),
      (∀ f ∈ rem, f.wf mml) →
      u ++ cs.flatten = frameStream rem →
      blockedBuf u mml →
      (frameStream rem).length ≤ mbs →
      rem.length + 1 ≤ F →
      ∃ done rem2 u2,
        rem = done ++ rem2 ∧ u2 = frameStream rem2 ∧ blockedBuf u2 mml ∧
        feedAll F ⟨u, mml, mbs⟩ cs = some (done.map decodeFrame, ⟨u2, mml, mbs⟩) := by
  intro cs
  induction cs with
  | nil =>
    intro rem u hw heq hb _ _
    exact ⟨[], rem, u, by simp, by simpa using heq, hb, rfl⟩
  | cons c cs ih =>
    intro rem u hw heq hb hmbs hF
    have heqc : (u ++ c) ++ cs.flatten = frameStream rem := by
      rw [← heq]
      simp
    obtain ⟨done1, rem1, u1, hsplit, hP, hrest, hb1⟩ :=
      frame_prefix_split mml rem (u ++ c) cs.flatten hw heqc
    have hulen : u.length + c.length ≤ (frameStream rem).length := by
      have h0 : ((u ++ c) ++ cs.flatten).length = (frameStream rem).length := by rw [heqc]
      simp at h0
      omega
    have hfeed : feed F ⟨u, mml, mbs⟩ c =
        some (done1.map decodeFrame, ⟨u1, mml, mbs⟩) := by
      rw [feed_no_overflow F ⟨u, mml, mbs⟩ c (by simp; omega)]
      have hfuel : done1.length + 1 ≤ F := by
        have : done1.length ≤ rem.length := by
          rw [hsplit]
          simp
        omega
      refine extractAll_mono (done1.length + 1) F hfuel _ _ ?_
      have hbuf : ({ buffer := u ++ c, maxMsgLen := mml, maxBufferSize := mbs } :
          ReaderState) = ⟨frameStream done1 ++ u1, mml, mbs⟩ := by
        rw [hP]
      rw [hbuf]
      exact extractAll_frames mml mbs done1 u1
        (fun g hg => hw g (by rw [hsplit]; simp [hg])) hb1
    have hwrem1 : ∀ f ∈ rem1, f.wf mml := fun g hg => hw g (by rw [hsplit]; simp [hg])
    have hmbs1 : (frameStream rem1).length ≤ mbs := by
      have : frameStream rem = frameStream done1 ++ frameStream rem1 := by
        rw [hsplit, frameStream_append]
      rw [this] at hmbs
      simp at hmbs
      omega
    have hF1 : rem1.length + 1 ≤ F := by
      have : rem1.length ≤ rem.length := by
        rw [hsplit]
        simp
      omega
    obtain ⟨done2, rem2, u2, hsplit2, hu2, hb2, hfeed2⟩ :=
      ih rem1 u1 hwrem1 hrest hb1 hmbs1 hF1
    refine ⟨done1 ++ done2, rem2, u2, ?_, hu2, hb2, ?_⟩
    · rw [hsplit, hsplit2, List.append_assoc]
    · show (match feed F ⟨u, mml, mbs⟩ c with
        | none => none
        | some (ms, st') => (feedAll F st' cs).map
            (fun p : List String × ReaderState => (ms ++ p.1, p.2))) = _
      rw [hfeed]
      show (feedAll F ⟨u1, mml, mbs⟩ cs).map
          (fun p : List String × ReaderState => (done1.map decodeFrame ++ p.1, p.2)) = _
      rw [hfeed2]
      simp

theorem spaceFree_align :
    ∀ (A B X Y : List Nat), (∀ c ∈ A, c ≠ 32) → (∀ c ∈ B, c ≠ 32) →
      A ++ 32 :: X = B ++ 32 :: Y → A = B ∧ X = Y := by
  intro A
  induction A with
  | nil =>
    intro B X Y _ hB h
    cases B with
    | nil =>
      simp at h
      exact ⟨rfl, h⟩
    | cons b B' =>
      simp at h
      exact absurd h.1.symm (hB b (by simp))
  | cons a A' ih =>
    intro B X Y hA hB h
    cases B with
    | nil =>
      simp at h
      exact absurd h.1 (hA a (by simp))
    | cons b B' =>
      simp only [List.cons_append, List.cons.injEq] at h
      obtain ⟨rfl, h2⟩ := h
      obtain ⟨hAB, hXY⟩ := ih B' X Y (fun c hc => hA c (by simp [hc]))
        (fun c hc => hB c (by simp [hc])) h2
      exact ⟨by rw [hAB], hXY⟩

theorem blocked_stream_nil (mml : Nat) (rem : List Frame) (u : List Nat)
    (hw : ∀ f ∈ rem, f.wf mml) (heq : u = frameStream rem) (hb : blockedBuf u mml) :
    rem = [] ∧ u = [] := by
  cases rem with
  | nil => exact ⟨rfl, by simpa [frameStream] using heq⟩
  | cons f rem' =>
    exfalso
    have hu : u = f.digits ++ 32 :: (f.payload ++ frameStream rem') := by
      rw [heq]
      show frameStream (f :: rem') = _
      have : frameStream (f :: rem') = encodeFrame f ++ frameStream rem' := by
        simp [frameStream]
      rw [this, encodeFrame_as_append]
    obtain ⟨hne1, hdig1, hval1, _⟩ := hw f (by simp)
    rcases hb with hnil | ⟨f2, t2, hwf2, heq2, hne2⟩
    · rw [hnil] at hu
      exact hne1 (List.append_eq_nil.mp hu.symm).1
    · obtain ⟨hne2d, hdig2, hval2, _⟩ := hwf2
      rw [hu] at heq2
      have heq3 : f.digits ++ 32 :: (f.payload ++ frameStream rem' ++ t2) =
          f2.digits ++ 32 :: f2.payload :=
        calc f.digits ++ 32 :: (f.payload ++ frameStream rem' ++ t2)
            = (f.digits ++ 32 :: (f.payload ++ frameStream rem')) ++ t2 := by simp
          _ = encodeFrame f2 := heq2
          _ = f2.digits ++ 32 :: f2.payload := rfl
      obtain ⟨hdd, hpp⟩ := spaceFree_align _ _ _ _
        (fun c hc => digit_ne_32 (hdig1 c hc))
        (fun c hc => digit_ne_32 (hdig2 c hc)) heq3
      have hlen2 : f2.payload.length = f.payload.length := by
        rw [← hval2, ← hdd, hval1]
      have htlen : t2.length ≠ 0 := fun hz => hne2 (List.eq_nil_of_length_eq_zero hz)
      have : f2.payload.length =
          f.payload.length + (frameStream rem').length + t2.length := by
        rw [← hpp]
        simp only [List.length_append]
      omega

theorem frames_le_stream_length : ∀ ps : List Frame, ps.length ≤ (frameStream ps).length := by
  intro ps
  induction ps with
  | nil => simp [frameStream]
  | cons f fs ih =>
    have h : frameStream (f :: fs) = encodeFrame f ++ frameStream fs := by
      simp [frameStream]
    rw [h]
    simp only [List.length_cons, List.length_append]
    have : 1 ≤ (encodeFrame f).length := by
      simp [encodeFrame]
      omega
    omega

theorem feed_stream_all (mml mbs : Nat) (ps : List Frame)
    (hw : ∀ f ∈ ps, f.wf mml)
    (hlen : (frameStream ps).length ≤ mbs) :
    feed ((frameStream ps).length + 1) (mkReader mml mbs) (frameStream ps) =
      some (ps.map decodeFrame, mkReader mml mbs) := by
  rw [feed_no_overflow _ _ _ (by simp [mkReader]; omega)]
  have h := extractAll_frames mml mbs ps [] hw (Or.inl rfl)
  rw [List.append_nil] at h
  exact extractAll_mono (ps.length + 1) ((frameStream ps).length + 1)
    (by have := frames_le_stream_length ps; omega) _ _ h

/-- C8: a fresh decoder fed a buffer consisting solely of well-formed
octet-counted frames, of total size within the buffer ceiling, emits
exactly the frame payloads decoded as UTF-8 with replacement, in wire
order; in particular "5 HELLO5 WORLD" yields exactly
["HELLO", "WORLD"]. -/
theorem c8_wellformed_frames (mml mbs : Nat) (ps : List Frame)
    (hw : ∀ f ∈ ps, f.wf mml)
    (hlen : (frameStream ps).length ≤ mbs) :
    feed ((frameStream ps).length + 1) (mkReader mml mbs) (frameStream ps) =
      some (ps.map decodeFrame, mkReader mml mbs) :=
  feed_stream_all mml mbs ps hw hlen

theorem c8_wellformed_frames_witness :
    feed 15 (mkReader 65535 10485760) (strBytes "5 HELLO5 WORLD") =
      some (["HELLO", "WORLD"], mkReader 65535 10485760) := by
  have h := c8_wellformed_frames 65535 10485760
    [⟨[53], strBytes "HELLO"⟩, ⟨[53], strBytes "WORLD"⟩] (by decide) (by decide)
  exact h

/-- C4 counterexample: chunking is observable through frame-skip
recovery.  The oversize declared length 999999 makes the decoder
search for a newline; fed in one piece, everything through the
newline is discarded and only ["hi"] is emitted, but when the bytes
arrive split just after the oversize prefix, the first feed clears
the buffer (no newline yet) and the second feed starts fresh,
emitting ["ABCDEFG", "hi"]. -/
theorem c4_counterexample :
    ¬ (∀ (w : List Nat) (cs : List (List Nat)) (fuel : Nat)
         (msC msS : List String) (stC stS : ReaderState),
        cs.flatten = w →
        feedAll fuel freshReader cs = some (msC, stC) →
        feed fuel freshReader w = some (msS, stS) →
        msC = msS) := by
  intro h
  have := h (strBytes "999999 7 ABCDEFG\n2 hi")
    [strBytes "999999 ", strBytes "7 ABCDEFG\n2 hi"] 30
    ["ABCDEFG", "hi"] ["hi"] freshReader freshReader
    (by decide) (by decide) (by decide)
  exact absurd this (by decide)

/-- C4 (amended): over inputs in the wire format's domain the decoder
is chunk-invariant: for every stream of well-formed frames within the
buffer ceiling and every partition of its bytes into consecutive
chunks, feeding the chunks in order to a fresh decoder and
concatenating the per-feed outputs equals feeding all bytes at once,
both yielding exactly the decoded payloads in order; in particular
"11 hel" then "lo world" yields [] then ["hello world"].  Outside
this domain the law fails: a frame-skip on an oversize length whose
newline has not yet arrived discards the rest of the current chunk
only, as the counterexample shows. -/
theorem c4_chunk_invariance (mml mbs : Nat) (ps : List Frame) (cs : List (List Nat))
    (hw : ∀ f ∈ ps, f.wf mml)
    (hlen : (frameStream ps).length ≤ mbs)
    (hcs : cs.flatten = frameStream ps) :
    feedAll ((frameStream ps).length + 1) (mkReader mml mbs) cs =
      some (ps.map decodeFrame, mkReader mml mbs) ∧
    feed ((frameStream ps).length + 1) (mkReader mml mbs) (frameStream ps) =
      some (ps.map decodeFrame, mkReader mml mbs) := by
  refine ⟨?_, feed_stream_all mml mbs ps hw hlen⟩
  obtain ⟨done, rem2, u2, hsplit, hu2, hb2, hfeed⟩ :=
    feedAll_frames mml mbs ((frameStream ps).length + 1) cs ps [] hw
      (by simpa using hcs) (Or.inl rfl) hlen
      (by have := frames_le_stream_length ps; omega)
  obtain ⟨hrem2, hu2nil⟩ := blocked_stream_nil mml rem2 u2
    (fun g hg => hw g (by rw [hsplit]; simp [hg])) hu2 hb2
  rw [hrem2, List.append_nil] at hsplit
  rw [hu2nil, ← hsplit] at hfeed
  exact hfeed

theorem c4_chunk_invariance_witness :
    feedAll 15 (mkReader 65535 10485760) [strBytes "11 hel", strBytes "lo world"] =
      some (["hello world"], mkReader 65535 10485760) ∧
    feed 15 (mkReader 65535 10485760) (strBytes "11 hello world") =
      some (["hello world"], mkReader 65535 10485760) := by
  have h := c4_chunk_invariance 65535 10485760 [⟨[49, 49], strBytes "hello world"⟩]
    [strBytes "11 hel", strBytes "lo world"] (by decide) (by decide) (by decide)
  exact h

end Syslog
